import Mathlib

/-!
Shallow embedding of `simpleget/__main__.py` (episode parsing, identity
resolution, destination planning, dedup oracle, prequeue decision loop and
postqueue placement), together with theorems checking the natural-language
specification against it.

Strings are modelled as `List Char`; machine integers do not occur (seasons
and episode numbers are small `Nat`s parsed from at most two digits);
fallible operations return `Option`; the mutable globals (`found`) and the
filesystem are threaded explicitly.
-/

namespace SimpleGet

/-- Newline character; the regex metacharacter dot matches any char except it. -/
def nl : Char := Char.ofNat 10

/-- Value of an ASCII digit character. -/
def digitVal (c : Char) : Nat := c.toNat - 48

/-- Characters matched by the digit class of the pattern. -/
def isDig (c : Char) : Bool := decide (48 ≤ c.toNat) && decide (c.toNat ≤ 57)

/-- Characters matched by the class before the season marker in
`EPISODES_REGEX`, i.e. a literal dot or a space. -/
def sepChar (c : Char) : Bool := c == '.' || c == ' '

/-- Characters matched by the class before the season digits: the source
pattern spells the class as s-bar-S, so it contains the bar character too. -/
def sClass (c : Char) : Bool := c == 's' || c == 'S' || c == '|'

/-- Characters matched by the class between season and episode digits
(x-bar-X-bar-e-bar-E as a character class, hence also the bar). -/
def eClass (c : Char) : Bool := c == 'x' || c == 'X' || c == 'e' || c == 'E' || c == '|'

/-- Case-insensitive test that `cs` begins with `p` (models `re.I`). -/
def startsWithCI : List Char → List Char → Bool
  | [], _ => true
  | _ :: _, [] => false
  | p :: ps, c :: cs => (p.toLower == c.toLower) && startsWithCI ps cs

/-- Test that `cs` begins with `p` (exact). -/
def startsWith : List Char → List Char → Bool
  | [], _ => true
  | _ :: _, [] => false
  | p :: ps, c :: cs => (p == c) && startsWith ps cs

/-- Does a resolution tag (`1080p` or `2160p`, case-insensitively) start here? -/
def tagAt (cs : List Char) : Bool :=
  startsWithCI "1080p".data cs || startsWithCI "2160p".data cs

/-- Fourth capture group of `EPISODES_REGEX`: the pattern is greedy-dot-star
followed by the tagged group, so the group starts at the rightmost position
(reachable without crossing a newline) where a resolution tag begins, and
captures from there up to the end of the input (or the next newline). -/
def grp4 : List Char → Option (List Char)
  | [] => none
  | c :: rest =>
      match (if c == nl then none else grp4 rest) with
      | some r => some r
      | none =>
          if tagAt (c :: rest) then some ((c :: rest).takeWhile (fun x => x ≠ nl))
          else none

/-- After the episode marker: exactly two digits, then the trailer group. -/
def matchEp (se : Nat) : List Char → Option (Nat × Nat × List Char)
  | a :: b :: rest =>
      if isDig a && isDig b then
        match grp4 rest with
        | some tr => some (se, 10 * digitVal a + digitVal b, tr)
        | none => none
      else none
  | _ => none

/-- One character of the episode-marker class, then the episode digits. -/
def matchEMark (se : Nat) : List Char → Option (Nat × Nat × List Char)
  | c :: rest => if eClass c then matchEp se rest else none
  | [] => none

/-- Season digits: greedily two digits, backtracking to one. -/
def matchSeason : List Char → Option (Nat × Nat × List Char)
  | a :: b :: rest =>
      match (if isDig a && isDig b then
               matchEMark (10 * digitVal a + digitVal b) rest
             else none) with
      | some r => some r
      | none => if isDig a then matchEMark (digitVal a) (b :: rest) else none
  | [a] => if isDig a then matchEMark (digitVal a) [] else none
  | [] => none

/-- Branch of the pattern that greedily consumes one season-marker
character before the season digits. -/
def matchSOpt : List Char → Option (Nat × Nat × List Char)
  | d :: rest2 => if sClass d then matchSeason rest2 else none
  | [] => none

/-- Everything of `EPISODES_REGEX` after the title group: a separator, an
optional season-marker character (consumed greedily, backtracking to not
consuming it), then season, episode marker, episode and trailer. -/
def matchRest : List Char → Option (Nat × Nat × List Char)
  | [] => none
  | c :: rest =>
      if sepChar c then
        match matchSOpt rest with
        | some r => some r
        | none => matchSeason rest
      else none

/-- Greedy title group: try the longest prefix (of length `n` at most) whose
characters are all newline-free and whose remainder matches the rest of the
pattern, backtracking to shorter prefixes. -/
def matchFrom (cs : List Char) : Nat → Option (List Char × Nat × Nat × List Char)
  | 0 => none
  | n + 1 =>
      let pre := cs.take (n + 1)
      let suf := cs.drop (n + 1)
      if pre.all (fun c => c ≠ nl) then
        match matchRest suf with
        | some (se, ep, tr) => some (pre, se, ep, tr)
        | none => matchFrom cs n
      else matchFrom cs n

/-- The anchored match of `EPISODES_REGEX` against `cs`, returning the raw
captured groups: title, season, episode, trailer. -/
def matchEpisode (cs : List Char) : Option (List Char × Nat × Nat × List Char) :=
  matchFrom cs cs.length

/-- Python `str.title()` on ASCII input: a letter following a non-letter is
uppercased, a letter following a letter is lowercased, others kept. -/
def pyTitleGo : Bool → List Char → List Char
  | _, [] => []
  | prevAlpha, c :: rest =>
      if c.isAlpha then
        (if prevAlpha then c.toLower else c.toUpper) :: pyTitleGo true rest
      else c :: pyTitleGo false rest

/-- Python `str.title()` applied from the start of the string. -/
def pyTitle (cs : List Char) : List Char := pyTitleGo false cs

/-- Replace each underscore or dot by one space (each occurrence separately,
as two chained `str.replace` calls do). -/
def sepToSpace (c : Char) : Char := if c = '_' ∨ c = '.' then ' ' else c

/-- Title cleanup in `parse_episode`: separators to spaces, then `title()`. -/
def cleanTitle (raw : List Char) : List Char := pyTitle (raw.map sepToSpace)

/-- Episode record built by `parse_episode`. -/
structure Episode where
  title : List Char
  season : Nat
  episode : Nat
  trailer : List Char
deriving DecidableEq

/-- The function `parse_episode`: `none` models the `ValueError` raised on a
string that does not match `EPISODES_REGEX`. -/
def parse_episode (cs : List Char) : Option Episode :=
  match matchEpisode cs with
  | none => none
  | some (raw, se, ep, tr) => some ⟨cleanTitle raw, se, ep, tr⟩

/-- Test that `s` ends with `suf`; Python `str.endswith` (always true for an
empty suffix). -/
def endsWith (suf s : List Char) : Bool := startsWith suf.reverse s.reverse

/-- Model of `os.path.join(a, b)` on POSIX for the shapes the tool uses: an
absolute `b` replaces `a`, otherwise a single slash joins the parts (no extra
slash when `a` already ends in one or is empty). -/
def pyJoin (a b : List Char) : List Char :=
  if b.headD ' ' = '/' then b
  else if a = [] then b
  else if a.getLast? == some '/' then a ++ b
  else a ++ '/' :: b

/-- Drop one trailing slash from a path (so `isdir` accepts a trailing
slash the way the OS calls do). -/
def stripSlash (p : List Char) : List Char :=
  if p.getLast? == some '/' && decide (1 < p.length) then p.dropLast else p

/-- Model of `os.path.basename`. -/
def basenamePy (p : List Char) : List Char :=
  (p.reverse.takeWhile (fun c => c ≠ '/')).reverse

/-- Model of `os.path.dirname` (posixpath: keep everything before the last
slash, then strip trailing slashes unless the head is all slashes). -/
def dirnamePy (p : List Char) : List Char :=
  let tail := p.reverse.takeWhile (fun c => c ≠ '/')
  let head := p.take (p.length - tail.length)
  if head = [] then []
  else if head.all (fun c => c = '/') then head
  else (head.reverse.dropWhile (fun c => c = '/')).reverse

/-- Extension part of `os.path.splitext` (with the leading dot): from the
last dot of the basename, unless every character before it is a dot. -/
def splitextExt (p : List Char) : List Char :=
  let base := basenamePy p
  let extRev := base.reverse.takeWhile (fun c => c ≠ '.')
  if extRev.length == base.length then []
  else
    let stem := base.take (base.length - extRev.length - 1)
    if stem.all (fun c => c = '.') then [] else '.' :: extRev.reverse

/-- Python `str.split` on a slash (keeps empty pieces). -/
def splitSlashGo (acc : List Char) : List Char → List (List Char)
  | [] => [acc.reverse]
  | c :: rest =>
      if c = '/' then acc.reverse :: splitSlashGo [] rest
      else splitSlashGo (c :: acc) rest

/-- Split a path into its slash-separated components. -/
def splitSlash (cs : List Char) : List (List Char) := splitSlashGo [] cs

/-- One show directory inside a library root: its name as listed by
`listdir` on the root, and the basenames of everything found under it by the
recursive glob in `exists_episode`. -/
structure ShowDir where
  name : List Char
  files : List (List Char)
deriving DecidableEq

/-- One library root passed via the repeatable library option: its path and
the entries `listdir` yields for it. -/
structure LibRoot where
  root : List Char
  shows : List ShowDir
deriving DecidableEq

/-- Abstract n-gram similarity score between a query and a candidate name;
the scoring function of the external library is kept as a parameter. -/
abbrev Sim := List Char → List Char → ℚ

/-- The module-level constant `THRESHOLD = 0.6`. -/
def THRESHOLD : ℚ := mkRat 3 5

/-- Replace the best accepted candidate by a new candidate with a strictly
larger score (the first candidate among equal scores is kept, as the
stable sort keeps it). -/
def ngramBest (s : ShowDir) (sc : ℚ) : Option (ShowDir × ℚ) → Option (ShowDir × ℚ)
  | none => some (s, sc)
  | some (b, bs) => if bs < sc then some (s, sc) else some (b, bs)

/-- Fold of `ngramFind` keeping the best candidate scoring strictly above
the threshold, with its score. -/
def ngramFindGo (sim : Sim) (thr : ℚ) (query : List Char) :
    Option (ShowDir × ℚ) → List ShowDir → Option (ShowDir × ℚ)
  | best, [] => best
  | best, s :: rest =>
      ngramFindGo sim thr query
        (if thr < sim query s.name then ngramBest s (sim query s.name) best else best) rest

/-- Modelled from the spec: `NGram.find` of the external n-gram library (not
part of this repository) returns the single best candidate whose similarity
with the query strictly exceeds the threshold, or nothing. -/
def ngramFind (sim : Sim) (thr : ℚ) (query : List Char) (shows : List ShowDir) :
    Option ShowDir :=
  (ngramFindGo sim thr query none shows).map (fun x => x.1)

/-- The search of `exists_series`, also keeping the matched show directory
record so that the dedup oracle can scan its files. -/
def find_show (sim : Sim) (thr : ℚ) : List LibRoot → List Char → Option (List Char × ShowDir)
  | [], _ => none
  | d :: rest, title =>
      match ngramFind sim thr title d.shows with
      | some sh => some (pyJoin d.root sh.name, sh)
      | none => find_show sim thr rest title

/-- The function `exists_series` generalized over the threshold. -/
def exists_seriesT (sim : Sim) (thr : ℚ) (library : List LibRoot) (title : List Char) :
    Option (List Char) :=
  (find_show sim thr library title).map (fun x => x.1)

/-- The function `exists_series`: first library whose listing fuzzy-matches
the title wins; the returned path joins that root with the matched name. -/
def exists_series (sim : Sim) (library : List LibRoot) (title : List Char) :
    Option (List Char) :=
  exists_seriesT sim THRESHOLD library title

/-- The overridden equality of the `Episode` helper class: same season and
episode, titles similar strictly above `THRESHOLD`. -/
def fuzzyEq (sim : Sim) (a b : Episode) : Bool :=
  decide (THRESHOLD < sim a.title b.title) && a.season == b.season && a.episode == b.episode

/-- Membership of an episode in the `found` list under the overridden
equality, as Python `in` evaluates it. -/
def memFuzzy (sim : Sim) (e : Episode) (l : List Episode) : Bool :=
  l.any (fun f => fuzzyEq sim e f)

/-- Shared shape of the two accumulation loops of `exists_episode`: parse
each name, skip failures silently, append episodes not yet in the list. -/
def addParsed (sim : Sim) : List (List Char) → List Episode → List Episode
  | [], found => found
  | n :: rest, found =>
      addParsed sim rest
        (match parse_episode n with
         | some ep => if memFuzzy sim ep found then found else found ++ [ep]
         | none => found)

/-- Right-align to width two with zero fill, as the format spec in
`format_episode` does (numbers of three or more digits print in full). -/
def pad2 (n : Nat) : List Char :=
  if n < 10 then '0' :: Nat.toDigits 10 n else Nat.toDigits 10 n

/-- The function `format_episode`; `none` models the uncaught `IndexError`
raised by indexing the first library when none is given. -/
def format_episode (sim : Sim) (library : List LibRoot) (e : Episode) :
    Option (List Char) :=
  let dd : Option (List Char) :=
    match exists_series sim library e.title with
    | some p => some p
    | none =>
        match library with
        | [] => none
        | l :: _ => some (pyJoin l.root e.title)
  match dd with
  | none => none
  | some destination_dir =>
      let ti := (e.title.map Char.toLower).map (fun c => if c = ' ' then '.' else c)
      let tr := e.trailer.map Char.toLower
      let filename := ti ++ ('.' :: 's' :: pad2 e.season) ++ ('e' :: pad2 e.episode) ++ ('.' :: tr)
      some (pyJoin (pyJoin destination_dir ("Season ".data ++ pad2 e.season)) filename)

/-- Hydration step of `exists_episode`: when an accessor is configured and
the `found` list is still empty, fetch and parse its entries into it. -/
def hydrated (sim : Sim) (nzbget : Option (List (List Char))) (found : List Episode) :
    List Episode :=
  match nzbget with
  | some groups => if found.length = 0 then addParsed sim groups found else found
  | none => found

/-- The function `exists_episode`, with the global `found` list threaded in
and out. The queue/history accessor is `some` of the entry names of
`listgroups` plus `history` when an nzbget proxy is configured. -/
def exists_episode (sim : Sim) (library : List LibRoot) (e : Episode)
    (nzbget : Option (List (List Char))) (found : List Episode) :
    Bool × List Episode :=
  if memFuzzy sim e (hydrated sim nzbget found) then (true, hydrated sim nzbget found)
  else
    match find_show sim THRESHOLD library e.title with
    | none => (false, hydrated sim nzbget found)
    | some pr =>
        (memFuzzy sim e (addParsed sim pr.2.files (hydrated sim nzbget found)),
         addParsed sim pr.2.files (hydrated sim nzbget found))

/-- One iteration of the `prequeue` feed loop for one item title: returns
the updated `found` list and whether the item is fetched (uploaded). -/
def prequeue_item (sim : Sim) (library : List LibRoot) (get_all no_pilots : Bool)
    (nzbget : Option (List (List Char))) (title : List Char) (found : List Episode) :
    List Episode × Bool :=
  match parse_episode title with
  | none => (found, false)
  | some e =>
      if (if (exists_episode sim library e nzbget found).1 then true
          else if get_all then false
          else if !no_pilots && (e.season == 1 && e.episode == 1) then false
          else !(exists_series sim library e.title).isSome) then
        ((exists_episode sim library e nzbget found).2, false)
      else ((exists_episode sim library e nzbget found).2 ++ [e], true)

/-- One `exists_episode` call of a run, for counting hydrations. -/
structure Call where
  library : List LibRoot
  e : Episode
  nzbget : Option (List (List Char))

/-- The guard under which `exists_episode` fetches and parses the accessor
entries: an accessor is configured and the `found` list is empty. -/
def hydrationGuard (c : Call) (found : List Episode) : Bool :=
  c.nzbget.isSome && found.length == 0

/-- Run a sequence of `exists_episode` calls from an initial `found` list,
returning the final list and how many calls executed the hydration step. -/
def runExists (sim : Sim) : List Call → List Episode → List Episode × Nat
  | [], found => (found, 0)
  | c :: cs, found =>
      ((runExists sim cs (exists_episode sim c.library c.e c.nzbget found).2).1,
       (if hydrationGuard c found then 1 else 0) +
         (runExists sim cs (exists_episode sim c.library c.e c.nzbget found).2).2)

/-- Abstract filesystem for `postqueue`: regular files and directories, each
with the size `os.path.getsize` reports (a directory reports its inode
size, typically 4096, not the total of its contents). -/
structure FS where
  files : List (List Char × Nat)
  dirs : List (List Char × Nat)
deriving DecidableEq

/-- Model of `os.path.isfile`. -/
def FS.isfile (fs : FS) (p : List Char) : Bool := fs.files.any (fun x => x.1 == p)

/-- Model of `os.path.isdir` (a trailing slash is accepted). -/
def FS.isdir (fs : FS) (p : List Char) : Bool :=
  fs.dirs.any (fun x => x.1 == stripSlash p)

/-- Model of `os.path.exists`. -/
def FS.existsPath (fs : FS) (p : List Char) : Bool := fs.isfile p || fs.isdir p

/-- Name under which `q` appears in `listdir p`, when it is an immediate
child of `p`. -/
def childName (p q : List Char) : Option (List Char) :=
  let pref := pyJoin p []
  if startsWith pref q then
    let rest := q.drop pref.length
    if rest ≠ [] && !(rest.any (fun c => c = '/')) then some rest else none
  else none

/-- The pairs built by the selection loop of `postqueue`: `getsize` and name
for every entry `listdir p` yields, files and subdirectories alike. -/
def childEntries (fs : FS) (p : List Char) : List (Nat × List Char) :=
  (fs.files.filterMap (fun x => (childName p x.1).map (fun n => (x.2, n)))) ++
  (fs.dirs.filterMap (fun x => (childName p x.1).map (fun n => (x.2, n))))

/-- Immediate subdirectory names of `p`. -/
def childDirs (fs : FS) (p : List Char) : List (List Char) :=
  fs.dirs.filterMap (fun x => childName p x.1)

/-- Tuple comparison Python applies when sorting `(size, name)` pairs. -/
def strLt : List Char → List Char → Bool
  | [], [] => false
  | [], _ :: _ => true
  | _ :: _, [] => false
  | a :: as_, b :: bs => decide (a < b) || (a == b && strLt as_ bs)

/-- Strict order on `(size, name)` pairs, sizes first. -/
def entLt (a b : Nat × List Char) : Bool :=
  decide (a.1 < b.1) || (a.1 == b.1 && strLt a.2 b.2)

/-- Fold computing the last element of the stable ascending sort, i.e. the
maximum under `entLt` (directory listings carry distinct names, so keys are
distinct and the fold agrees with `sorted(...)[-1]`). -/
def maxEntryGo (acc : Nat × List Char) : List (Nat × List Char) → Nat × List Char
  | [] => acc
  | x :: rest => maxEntryGo (if entLt acc x then x else acc) rest

/-- Model of `sorted(pairs)[-1]`; `none` models the `IndexError` raised on
an empty directory. -/
def maxEntry : List (Nat × List Char) → Option (Nat × List Char)
  | [] => none
  | x :: rest => some (maxEntryGo x rest)

/-- Source selection of `postqueue`: a directory input selects the entry
with the largest `(getsize, name)` pair, a non-directory input is used as
the source path itself. -/
def pq_src (fs : FS) (path : List Char) : Option (List Char) :=
  if fs.isdir path then
    match maxEntry (childEntries fs path) with
    | some pr => some (pyJoin path pr.2)
    | none => none
  else some path

/-- First path component, scanned from the deepest outward, that parses as
an episode. -/
def firstParsed : List (List Char) → Option Episode
  | [] => none
  | p :: rest =>
      match parse_episode p with
      | some e => some e
      | none => firstParsed rest

/-- Destination planned by `postqueue` for a selected source file: the
formatted episode path, with the source extension appended when the
formatted name does not already end in it. -/
def pq_dest (sim : Sim) (library : List LibRoot) (source : List Char) :
    Option (List Char) :=
  match firstParsed (splitSlash source).reverse with
  | none => none
  | some e =>
      match format_episode sim library e with
      | none => none
      | some d0 =>
          some (if endsWith (splitextExt source) d0 then d0 else d0 ++ splitextExt source)

/-- Directories created by `makedirs(d, exist_ok=True)`: `d` and all its
ancestors (fuelled recursion; `dirnamePy` shortens the path). -/
def ancestorsGo : Nat → List Char → List (List Char)
  | 0, _ => []
  | n + 1, p =>
      if p = [] || p.all (fun c => c = '/') then []
      else p :: ancestorsGo n (dirnamePy p)

/-- Model of `os.makedirs(d, exist_ok=True)`. -/
def FS.makedirs (fs : FS) (d : List Char) : FS :=
  let newDirs := (ancestorsGo (d.length + 1) d).filter (fun q => !(fs.isdir q))
  { fs with dirs := fs.dirs ++ newDirs.map (fun q => (q, 4096)) }

/-- Size of a regular file, zero when absent. -/
def FS.sizeOf (fs : FS) (p : List Char) : Nat :=
  match fs.files.find? (fun x => x.1 == p) with
  | some x => x.2
  | none => 0

/-- Model of `shutil.move` onto a fresh destination path. -/
def FS.move (fs : FS) (src dst : List Char) : FS :=
  { fs with files := (fs.files.filter (fun x => x.1 != src)) ++ [(dst, fs.sizeOf src)] }

/-- Model of `shutil.rmtree`. -/
def FS.rmtree (fs : FS) (p : List Char) : FS :=
  let p0 := stripSlash p
  let pref := pyJoin p []
  let keep := fun (q : List Char) => !(q == p0) && !(startsWith pref q)
  { files := fs.files.filter (fun x => keep x.1),
    dirs := fs.dirs.filter (fun x => keep x.1) }

/-- The `postqueue` command on one input: returns the resulting filesystem
and the fatal error, if any, at the point it is raised (the filesystem is
returned unchanged in that case, since every mutation in the source comes
after all the checks). -/
def postqueue (sim : Sim) (library : List LibRoot) (filename directory : List Char)
    (fs : FS) : FS × Option (List Char) :=
  let path := pyJoin directory filename
  match pq_src fs path with
  | none => (fs, some "list index out of range".data)
  | some source =>
      if !(fs.isfile source) then (fs, some "source is not a file".data)
      else
        match firstParsed (splitSlash source).reverse with
        | none => (fs, some "source could not be parsed".data)
        | some e =>
            match format_episode sim library e with
            | none => (fs, some "list index out of range".data)
            | some d0 =>
                let destination :=
                  if endsWith (splitextExt source) d0 then d0 else d0 ++ splitextExt source
                if fs.existsPath destination then
                  (fs, some "destination already exists".data)
                else
                  let fs1 := fs.makedirs (dirnamePy destination)
                  let fs2 := fs1.move source destination
                  let fs3 := if fs.isdir path then fs2.rmtree path else fs2
                  (fs3, none)

/-!
Helper lemmas shared by the claim theorems.
-/

lemma addParsed_extends (sim : Sim) :
    ∀ (names : List (List Char)) (found : List Episode),
      ∃ t, addParsed sim names found = found ++ t := by
  intro names
  induction names with
  | nil => exact fun found => ⟨[], by simp [addParsed]⟩
  | cons n rest ih =>
      intro found
      cases hp : parse_episode n with
      | none => simpa [addParsed, hp] using ih found
      | some ep =>
          cases hm : memFuzzy sim ep found with
          | true => simpa [addParsed, hp, hm] using ih found
          | false =>
              obtain ⟨t, ht⟩ := ih (found ++ [ep])
              exact ⟨ep :: t, by simp [addParsed, hp, hm, ht]⟩

lemma addParsed_eq_nil (sim : Sim) :
    ∀ (names : List (List Char)) (found : List Episode),
      addParsed sim names found = [] → found = [] := by
  intro names
  induction names with
  | nil => intro found h; simpa [addParsed] using h
  | cons n rest ih =>
      intro found h
      cases hp : parse_episode n with
      | none =>
          rw [addParsed, hp] at h
          exact ih found h
      | some ep =>
          cases hm : memFuzzy sim ep found with
          | true =>
              rw [addParsed, hp] at h
              simp only [hm, if_true] at h
              exact ih found h
          | false =>
              rw [addParsed, hp] at h
              simp only [hm, Bool.false_eq_true, if_false] at h
              have := ih (found ++ [ep]) h
              simp at this

lemma memFuzzy_nil (sim : Sim) (e : Episode) : memFuzzy sim e [] = false := rfl

lemma addParsed_parsable_ne_nil (sim : Sim) :
    ∀ (names : List (List Char)) (found : List Episode),
      (∃ n ∈ names, (parse_episode n).isSome) →
      addParsed sim names found ≠ [] := by
  intro names
  induction names with
  | nil => intro found h; simp at h
  | cons n rest ih =>
      intro found h hnil
      have hf : found = [] := addParsed_eq_nil sim (n :: rest) found hnil
      subst hf
      cases hp : parse_episode n with
      | some ep =>
          rw [addParsed, hp] at hnil
          simp only [memFuzzy_nil, Bool.false_eq_true, if_false, List.nil_append] at hnil
          exact absurd (addParsed_eq_nil sim rest [ep] hnil) (by simp)
      | none =>
          rw [addParsed, hp] at hnil
          obtain ⟨m, hm, hms⟩ := h
          rcases List.mem_cons.mp hm with h1 | h2
          · subst h1; rw [hp] at hms; simp at hms
          · exact ih [] ⟨m, h2, hms⟩ hnil

lemma hydrated_extends (sim : Sim) (nzbget : Option (List (List Char)))
    (found : List Episode) : ∃ t, hydrated sim nzbget found = found ++ t := by
  cases nzbget with
  | none => exact ⟨[], by simp [hydrated]⟩
  | some groups =>
      by_cases h : found.length = 0
      · simpa [hydrated, h] using addParsed_extends sim groups found
      · exact ⟨[], by simp [hydrated, h]⟩

lemma exists_episode_extends (sim : Sim) (library : List LibRoot) (e : Episode)
    (nzbget : Option (List (List Char))) (found : List Episode) :
    ∃ t, (exists_episode sim library e nzbget found).2 =
      hydrated sim nzbget found ++ t := by
  rw [exists_episode]
  by_cases hm : memFuzzy sim e (hydrated sim nzbget found) = true
  · exact ⟨[], by simp [hm]⟩
  · simp only [Bool.not_eq_true] at hm
    rw [hm]
    simp only [Bool.false_eq_true, if_false]
    cases hf : find_show sim THRESHOLD library e.title with
    | none => exact ⟨[], by simp⟩
    | some pr => exact addParsed_extends sim pr.2.files (hydrated sim nzbget found)

lemma exists_episode_extends_found (sim : Sim) (library : List LibRoot) (e : Episode)
    (nzbget : Option (List (List Char))) (found : List Episode) :
    ∃ t, (exists_episode sim library e nzbget found).2 = found ++ t := by
  obtain ⟨t1, h1⟩ := exists_episode_extends sim library e nzbget found
  obtain ⟨t0, h0⟩ := hydrated_extends sim nzbget found
  exact ⟨t0 ++ t1, by rw [h1, h0, List.append_assoc]⟩

lemma exists_episode_ne_nil (sim : Sim) (library : List LibRoot) (e : Episode)
    (nzbget : Option (List (List Char))) (found : List Episode)
    (h : found ≠ []) : (exists_episode sim library e nzbget found).2 ≠ [] := by
  obtain ⟨t, ht⟩ := exists_episode_extends_found sim library e nzbget found
  rw [ht]
  simp [h]

lemma hydrated_parsable_ne_nil (sim : Sim) (groups : List (List Char))
    (found : List Episode) (h : ∃ n ∈ groups, (parse_episode n).isSome) :
    hydrated sim (some groups) found ≠ [] := by
  by_cases hl : found.length = 0
  · simp only [hydrated, hl, if_true]
    exact addParsed_parsable_ne_nil sim groups found h
  · simp only [hydrated, hl, if_false]
    exact fun hc => hl (by simp [hc])

lemma runExists_zero_of_ne_nil (sim : Sim) :
    ∀ (calls : List Call) (found : List Episode), found ≠ [] →
      (runExists sim calls found).2 = 0 := by
  intro calls
  induction calls with
  | nil => intro found _; rfl
  | cons c cs ih =>
      intro found h
      rw [runExists]
      have hg : hydrationGuard c found = false := by
        simp [hydrationGuard, List.length_eq_zero, h]
      rw [hg]
      simp only [Bool.false_eq_true, if_false, Nat.zero_add]
      exact ih _ (exists_episode_ne_nil sim c.library c.e c.nzbget found h)

/-- Claim C3 is corrected: the hydration guard only tests that the in-memory
`found` list is still empty, so hydration repeats whenever it adds nothing.
Here a run of two `exists` calls with a configured accessor whose only entry
name is unparsable performs the hydration step twice. -/
theorem c3_hydration_twice_counterexample :
    (runExists (fun _ _ => (0 : ℚ))
      [⟨[], ⟨"X".data, 1, 1, "1080p".data⟩, some ["junk".data]⟩,
       ⟨[], ⟨"X".data, 1, 1, "1080p".data⟩, some ["junk".data]⟩] []).2 = 2 ∧
    ¬ (runExists (fun _ _ => (0 : ℚ))
      [⟨[], ⟨"X".data, 1, 1, "1080p".data⟩, some ["junk".data]⟩,
       ⟨[], ⟨"X".data, 1, 1, "1080p".data⟩, some ["junk".data]⟩] []).2 ≤ 1 := by
  decide

/-- Claim C3, amended: the hydration step runs only while the FoundSet is
empty; in particular it runs at most once per run provided every configured
accessor's entry list contains at least one name that parses as an episode
(with only unparsable entries it can repeat, as the counterexample shows). -/
theorem c3_hydration_at_most_once (sim : Sim) :
    ∀ (calls : List Call) (found : List Episode),
      (∀ c ∈ calls, ∀ g, c.nzbget = some g → ∃ n ∈ g, (parse_episode n).isSome) →
      (runExists sim calls found).2 ≤ 1 := by
  intro calls
  induction calls with
  | nil => intro found _; simp [runExists]
  | cons c cs ih =>
      intro found h
      rw [runExists]
      cases hg : hydrationGuard c found with
      | false =>
          simp only [Bool.false_eq_true, if_false, Nat.zero_add]
          exact ih _ (fun c' hc' => h c' (List.mem_cons_of_mem _ hc'))
      | true =>
          simp only [if_true]
          have hnz : c.nzbget.isSome := by
            simp only [hydrationGuard, Bool.and_eq_true] at hg
            exact hg.1
          obtain ⟨g, hgeq⟩ := Option.isSome_iff_exists.mp hnz
          have hpar := h c (List.mem_cons_self c cs) g hgeq
          have hne : (exists_episode sim c.library c.e c.nzbget found).2 ≠ [] := by
            obtain ⟨t, ht⟩ := exists_episode_extends sim c.library c.e c.nzbget found
            rw [ht, hgeq]
            intro hcon
            exact hydrated_parsable_ne_nil sim g found hpar
              (List.append_eq_nil.mp hcon).1
          rw [runExists_zero_of_ne_nil sim cs _ hne]

/-- Claim C3 witness: with a parsable accessor entry, two calls hydrate at
most once. -/
theorem c3_hydration_at_most_once_witness :
    (runExists (fun _ _ => (0 : ℚ))
      [⟨[], ⟨"X".data, 1, 1, "1080p".data⟩, some ["Y.S01E02.1080p".data]⟩,
       ⟨[], ⟨"X".data, 1, 1, "1080p".data⟩, some ["Y.S01E02.1080p".data]⟩] []).2 ≤ 1 :=
  c3_hydration_at_most_once (fun _ _ => (0 : ℚ)) _ [] (by decide)

/-- Claim C9: the Destination Planner needs at least one library root; with
an empty list it faults (the modelled `IndexError` is `none`), and with a
non-empty list it is total and always returns a path. -/
theorem c9_format_episode_totality (sim : Sim) :
    (∀ e : Episode, format_episode sim [] e = none) ∧
    (∀ (l : LibRoot) (rest : List LibRoot) (e : Episode),
      ∃ p, format_episode sim (l :: rest) e = some p) := by
  constructor
  · intro e
    rfl
  · intro l rest e
    rw [format_episode]
    cases h : exists_series sim (l :: rest) e.title with
    | none => exact ⟨_, rfl⟩
    | some p => exact ⟨_, rfl⟩

/-- Claim C10: within one run the `found` list only grows: the dedup oracle
(hydration and show-directory scan included) and the decision loop's
record-on-fetch only append to it, so every prior entry survives every
operation on it. -/
theorem c10_found_monotone (sim : Sim) :
    (∀ (library : List LibRoot) (e : Episode) (nzbget : Option (List (List Char)))
       (found : List Episode),
       ∃ t, (exists_episode sim library e nzbget found).2 = found ++ t) ∧
    (∀ (library : List LibRoot) (get_all no_pilots : Bool)
       (nzbget : Option (List (List Char))) (title : List Char) (found : List Episode),
       ∃ t, (prequeue_item sim library get_all no_pilots nzbget title found).1 = found ++ t) := by
  constructor
  · exact fun library e nzbget found => exists_episode_extends_found sim library e nzbget found
  · intro library get_all no_pilots nzbget title found
    rw [prequeue_item]
    cases hp : parse_episode title with
    | none => exact ⟨[], by simp⟩
    | some e =>
        obtain ⟨t, ht⟩ := exists_episode_extends_found sim library e nzbget found
        by_cases hs : (if (exists_episode sim library e nzbget found).1 = true then true
            else if get_all = true then false
            else if (!no_pilots && (e.season == 1 && e.episode == 1)) = true then false
            else !(exists_series sim library e.title).isSome) = true
        · exact ⟨t, by simp only [hs, if_true, ht]⟩
        · exact ⟨t ++ [e], by
            simp only [Bool.not_eq_true] at hs
            simp only [hs, Bool.false_eq_true, if_false, ht, List.append_assoc]⟩

/-- Claim C2 is corrected; counterexample: get-all is set and the oracle
reports the episode as already present (it is in `found`), yet the terminal
decision of the decision loop is skip, not fetch, because the dedup check
runs after the get-all override. -/
theorem c2_get_all_counterexample :
    (exists_episode (fun _ _ => (1 : ℚ)) [] ⟨"X".data, 1, 2, "1080p".data⟩ none
      [⟨"X".data, 1, 2, "1080p".data⟩]).1 = true ∧
    (prequeue_item (fun _ _ => (1 : ℚ)) [] true false none "X.S01E02.1080p".data
      [⟨"X".data, 1, 2, "1080p".data⟩]).2 = false := by decide

/-- Claim C2, amended: the get-all override disables the show-directory and
pilot rules, but the Existence/Dedup Oracle is consulted after it and its
verdict wins: with get-all set, an item whose title parses is fetched
exactly when the oracle reports the episode as not already present. -/
theorem c2_get_all_vs_dedup (sim : Sim) (library : List LibRoot)
    (no_pilots : Bool) (nzbget : Option (List (List Char))) (title : List Char)
    (found : List Episode) (e : Episode) (h : parse_episode title = some e) :
    (prequeue_item sim library true no_pilots nzbget title found).2 =
      !(exists_episode sim library e nzbget found).1 := by
  rw [prequeue_item, h]
  cases hex : (exists_episode sim library e nzbget found).1 with
  | true => simp [hex]
  | false => simp [hex]

/-- Claim C2 witness. -/
theorem c2_get_all_vs_dedup_witness :
    (prequeue_item (fun _ _ => (1 : ℚ)) [] true false none "Y.S02E05.1080p".data []).2 =
      !(exists_episode (fun _ _ => (1 : ℚ)) [] ⟨"Y".data, 2, 5, "1080p".data⟩ none []).1 :=
  c2_get_all_vs_dedup (fun _ _ => (1 : ℚ)) [] false none "Y.S02E05.1080p".data []
    ⟨"Y".data, 2, 5, "1080p".data⟩ (by decide)

/-- Claim C1: for a non-empty library list the Destination Planner returns
the path showDirectory slash Season SS slash
title-lowercased-dot-joined.sSSeEE.trailer-lowercased, where the show
directory is the Identity Resolver match when there is one and otherwise a
new folder named after the raw title under the first root; the join places
single slashes between well-formed components, and season and episode
numbers of at most two digits are zero-padded to exactly two characters. -/
theorem c1_format_episode_path (sim : Sim) (l : LibRoot) (rest : List LibRoot)
    (e : Episode) :
    (format_episode sim (l :: rest) e = some
      (pyJoin (pyJoin
        (match exists_series sim (l :: rest) e.title with
         | some p => p
         | none => pyJoin l.root e.title)
        ("Season ".data ++ pad2 e.season))
        (((e.title.map Char.toLower).map (fun c => if c = ' ' then '.' else c)) ++
          ('.' :: 's' :: pad2 e.season) ++ ('e' :: pad2 e.episode) ++
          ('.' :: e.trailer.map Char.toLower)))) ∧
    (∀ (a b : List Char), a ≠ [] → a.getLast? ≠ some '/' → b.headD ' ' ≠ '/' →
      pyJoin a b = a ++ '/' :: b) ∧
    (e.season < 100 → (pad2 e.season).length = 2) ∧
    (e.episode < 100 → (pad2 e.episode).length = 2) := by
  have hpad : ∀ n < 100, (pad2 n).length = 2 := by decide
  refine ⟨?_, ?_, fun h => hpad _ h, fun h => hpad _ h⟩
  · rw [format_episode]
    cases h : exists_series sim (l :: rest) e.title with
    | none => rfl
    | some p => rfl
  · intro a b ha hlast hb
    rw [pyJoin, if_neg hb, if_neg ha, if_neg (by simpa using hlast)]

/-- Claim C1 witness: a single-digit season and episode are zero-padded and
the fallback show directory is the raw title under the first root. -/
theorem c1_format_episode_path_witness :
    format_episode (fun _ _ => (0 : ℚ)) [⟨"/tv".data, []⟩]
        ⟨"New Show".data, 3, 7, "1080p.WEB".data⟩ =
      some "/tv/New Show/Season 03/new.show.s03e07.1080p.web".data ∧
    (pad2 3).length = 2 := by
  have h := c1_format_episode_path (fun _ _ => (0 : ℚ)) ⟨"/tv".data, []⟩ []
    ⟨"New Show".data, 3, 7, "1080p.WEB".data⟩
  exact ⟨h.1.trans (by decide), h.2.2.1 (by decide)⟩

lemma pyTitleGo_length : ∀ (l : List Char) (b : Bool),
    (pyTitleGo b l).length = l.length := by
  intro l
  induction l with
  | nil => intro b; rfl
  | cons c rest ih =>
      intro b
      rw [pyTitleGo]
      by_cases hc : c.isAlpha = true
      · simp [hc, ih]
      · simp [hc, ih]

lemma cleanTitle_sep_space : ∀ (raw : List Char) (b : Bool) (i : Nat),
    (raw.getD i 'a' = '.' ∨ raw.getD i 'a' = '_') →
    (pyTitleGo b (raw.map sepToSpace)).getD i 'a' = ' ' := by
  intro raw
  induction raw with
  | nil => intro b i h; simp [List.getD] at h
  | cons c rest ih =>
      intro b i h
      cases i with
      | zero =>
          simp only [List.getD_cons_zero] at h
          have hc : sepToSpace c = ' ' := by
            rcases h with h | h <;> simp [sepToSpace, h]
          rw [List.map_cons, pyTitleGo, hc]
          simp
      | succ i =>
          simp only [List.getD_cons_succ] at h
          rw [List.map_cons, pyTitleGo]
          by_cases hc : (sepToSpace c).isAlpha = true
          · simp only [hc, if_true, List.getD_cons_succ]
            exact ih true i h
          · simp only [hc, Bool.false_eq_true, if_false, List.getD_cons_succ]
            exact ih false i h

/-- Claim C5 is corrected; counterexample: in the raw title the run of two
dots becomes two spaces in the cleaned title (each separator character is
replaced by one space), not the single space the claim states. -/
theorem c5_separator_run_counterexample :
    parse_episode "A..B.S01E02.1080p".data = some ⟨"A  B".data, 1, 2, "1080p".data⟩ ∧
    "A  B".data ≠ "A B".data := by decide

/-- Claim C5, amended: the cleaned title replaces every underscore and dot
of the captured raw title by exactly one space each (so a run of k
separators yields k spaces and the length is preserved) and then
title-cases the words. -/
theorem c5_title_normalization (cs raw : List Char) (se ep : Nat) (tr : List Char)
    (h : matchEpisode cs = some (raw, se, ep, tr)) :
    parse_episode cs = some ⟨pyTitle (raw.map sepToSpace), se, ep, tr⟩ ∧
    (cleanTitle raw).length = raw.length ∧
    (∀ i, (raw.getD i 'a' = '.' ∨ raw.getD i 'a' = '_') →
      (cleanTitle raw).getD i 'a' = ' ') := by
  refine ⟨by rw [parse_episode, h]; rfl, ?_, ?_⟩
  · rw [cleanTitle, pyTitle, pyTitleGo_length, List.length_map]
  · exact fun i hi => cleanTitle_sep_space raw false i hi

/-- Claim C5 witness: an underscore-separated title is cleaned in place. -/
theorem c5_title_normalization_witness :
    parse_episode "My_Show.S02E03.2160p.x265".data =
      some ⟨pyTitle ("My_Show".data.map sepToSpace), 2, 3, "2160p.x265".data⟩ ∧
    (cleanTitle "My_Show".data).length = "My_Show".data.length ∧
    (cleanTitle "My_Show".data).getD 2 'a' = ' ' := by
  have h := c5_title_normalization "My_Show.S02E03.2160p.x265".data "My_Show".data
    2 3 "2160p.x265".data (by decide)
  exact ⟨h.1, h.2.1, h.2.2 2 (by decide)⟩

lemma digitVal_le (c : Char) (h : isDig c = true) : digitVal c ≤ 9 := by
  simp only [isDig, Bool.and_eq_true, decide_eq_true_eq] at h
  simp only [digitVal]
  omega

lemma matchEp_spec (se : Nat) :
    ∀ (cs : List Char) (r : Nat × Nat × List Char),
      matchEp se cs = some r → r.1 = se ∧ r.2.1 ≤ 99 := by
  intro cs r h
  match cs with
  | [] => simp [matchEp] at h
  | [a] => simp [matchEp] at h
  | a :: b :: rest =>
      rw [matchEp] at h
      by_cases hd : (isDig a && isDig b) = true
      · rw [if_pos hd] at h
        cases hg : grp4 rest with
        | none => rw [hg] at h; simp at h
        | some tr =>
            rw [hg] at h
            cases h
            simp only [Bool.and_eq_true] at hd
            have h1 := digitVal_le a hd.1
            have h2 := digitVal_le b hd.2
            exact ⟨rfl, by simp; omega⟩
      · rw [if_neg hd] at h; simp at h

lemma matchEMark_spec (se : Nat) :
    ∀ (cs : List Char) (r : Nat × Nat × List Char),
      matchEMark se cs = some r → r.1 = se ∧ r.2.1 ≤ 99 := by
  intro cs r h
  match cs with
  | [] => simp [matchEMark] at h
  | c :: rest =>
      rw [matchEMark] at h
      by_cases hc : eClass c = true
      · rw [if_pos hc] at h
        exact matchEp_spec se rest r h
      · rw [if_neg hc] at h; simp at h

lemma matchSeason_spec :
    ∀ (cs : List Char) (r : Nat × Nat × List Char),
      matchSeason cs = some r → r.1 ≤ 99 ∧ r.2.1 ≤ 99 := by
  intro cs r h
  match cs with
  | [] => simp [matchSeason] at h
  | [a] =>
      rw [matchSeason] at h
      by_cases ha : isDig a = true
      · rw [if_pos ha] at h
        obtain ⟨h1, h2⟩ := matchEMark_spec (digitVal a) [] r h
        exact ⟨by rw [h1]; exact le_trans (digitVal_le a ha) (by omega), h2⟩
      · rw [if_neg ha] at h; simp at h
  | a :: b :: rest =>
      rw [matchSeason] at h
      by_cases hd : (isDig a && isDig b) = true
      · rw [if_pos hd] at h
        cases h2 : matchEMark (10 * digitVal a + digitVal b) rest with
        | some r2 =>
            rw [h2] at h
            have hr : r2 = r := by injection h
            obtain ⟨h1, hb⟩ := matchEMark_spec _ rest r2 h2
            rw [← hr]
            simp only [Bool.and_eq_true] at hd
            have ha1 := digitVal_le a hd.1
            have hb1 := digitVal_le b hd.2
            exact ⟨by rw [h1]; omega, hb⟩
        | none =>
            rw [h2] at h
            by_cases ha : isDig a = true
            · rw [if_pos ha] at h
              obtain ⟨h1, hb⟩ := matchEMark_spec (digitVal a) (b :: rest) r h
              exact ⟨by rw [h1]; exact le_trans (digitVal_le a ha) (by omega), hb⟩
            · rw [if_neg ha] at h; simp at h
      · rw [if_neg hd] at h
        by_cases ha : isDig a = true
        · rw [if_pos ha] at h
          obtain ⟨h1, hb⟩ := matchEMark_spec (digitVal a) (b :: rest) r h
          exact ⟨by rw [h1]; exact le_trans (digitVal_le a ha) (by omega), hb⟩
        · rw [if_neg ha] at h; simp at h

lemma matchSOpt_spec :
    ∀ (cs : List Char) (r : Nat × Nat × List Char),
      matchSOpt cs = some r → r.1 ≤ 99 ∧ r.2.1 ≤ 99 := by
  intro cs r h
  match cs with
  | [] => simp [matchSOpt] at h
  | d :: rest2 =>
      rw [matchSOpt] at h
      by_cases hd : sClass d = true
      · rw [if_pos hd] at h
        exact matchSeason_spec rest2 r h
      · rw [if_neg hd] at h; simp at h

lemma matchRest_spec :
    ∀ (cs : List Char) (r : Nat × Nat × List Char),
      matchRest cs = some r → r.1 ≤ 99 ∧ r.2.1 ≤ 99 := by
  intro cs r h
  match cs with
  | [] => simp [matchRest] at h
  | c :: rest =>
      rw [matchRest] at h
      by_cases hc : sepChar c = true
      · rw [if_pos hc] at h
        cases h2 : matchSOpt rest with
        | some r2 =>
            rw [h2] at h
            have hr : r2 = r := by injection h
            rw [← hr]
            exact matchSOpt_spec rest r2 h2
        | none =>
            rw [h2] at h
            exact matchSeason_spec rest r h
      · rw [if_neg hc] at h; simp at h

lemma matchFrom_spec (cs : List Char) :
    ∀ (n : Nat) (pre : List Char) (se ep : Nat) (tr : List Char),
      matchFrom cs n = some (pre, se, ep, tr) → se ≤ 99 ∧ ep ≤ 99 := by
  intro n
  induction n with
  | zero => intro pre se ep tr h; simp [matchFrom] at h
  | succ n ih =>
      intro pre se ep tr h
      rw [matchFrom] at h
      by_cases ha : (cs.take (n + 1)).all (fun c => c ≠ nl) = true
      · rw [if_pos ha] at h
        cases hm : matchRest (cs.drop (n + 1)) with
        | some r =>
            rw [hm] at h
            obtain ⟨r1, r2, r3⟩ := r
            cases h
            exact matchRest_spec _ _ hm
        | none =>
            rw [hm] at h
            exact ih pre se ep tr h
      · rw [if_neg ha] at h
        exact ih pre se ep tr h

/-- Claim C8: parsing is total — every input that fails the grammar yields
the recoverable not-an-episode outcome (`none`, the caught `ValueError`)
and every input that matches yields an episode record; moreover the numeric
fields parsed from at most two digits are bounded by 99, so construction
never faults. -/
theorem c8_parse_totality (cs : List Char) :
    (matchEpisode cs = none → parse_episode cs = none) ∧
    (∀ (raw : List Char) (se ep : Nat) (tr : List Char),
      matchEpisode cs = some (raw, se, ep, tr) →
      parse_episode cs = some ⟨cleanTitle raw, se, ep, tr⟩ ∧ se ≤ 99 ∧ ep ≤ 99) := by
  constructor
  · intro h
    rw [parse_episode, h]
  · intro raw se ep tr h
    exact ⟨by rw [parse_episode, h], matchFrom_spec cs cs.length raw se ep tr h⟩

/-- Claim C8 witness: one non-matching and one matching input. -/
theorem c8_parse_totality_witness :
    parse_episode "junk".data = none ∧
    parse_episode "Greys.Anatomy.S19E15.1080p.WEB.h264-CAKES".data =
      some ⟨cleanTitle "Greys.Anatomy".data, 19, 15, "1080p.WEB.h264-CAKES".data⟩ ∧
    19 ≤ 99 := by
  refine ⟨(c8_parse_totality "junk".data).1 (by decide), ?_⟩
  have h := (c8_parse_totality "Greys.Anatomy.S19E15.1080p.WEB.h264-CAKES".data).2
    "Greys.Anatomy".data 19 15 "1080p.WEB.h264-CAKES".data (by decide)
  exact ⟨h.1, h.2.1⟩

lemma ngramFindGo_eq_none (sim : Sim) (thr : ℚ) (q : List Char) :
    ∀ (l : List ShowDir) (best : Option (ShowDir × ℚ)),
      ngramFindGo sim thr q best l = none →
      best = none ∧ ∀ s ∈ l, sim q s.name ≤ thr := by
  intro l
  induction l with
  | nil => intro best h; exact ⟨h, by simp⟩
  | cons s rest ih =>
      intro best h
      rw [ngramFindGo] at h
      by_cases hs : thr < sim q s.name
      · rw [if_pos hs] at h
        have hnone := (ih _ h).1
        exfalso
        cases best with
        | none => rw [ngramBest] at hnone; simp at hnone
        | some p =>
            obtain ⟨b, bs⟩ := p
            rw [ngramBest] at hnone
            by_cases hbs : bs < sim q s.name
            · rw [if_pos hbs] at hnone; simp at hnone
            · rw [if_neg hbs] at hnone; simp at hnone
      · rw [if_neg hs] at h
        obtain ⟨h1, h2⟩ := ih best h
        refine ⟨h1, fun x hx => ?_⟩
        rcases List.mem_cons.mp hx with h3 | h3
        · subst h3; exact le_of_not_lt hs
        · exact h2 x h3

lemma ngramFindGo_spec (sim : Sim) (thr : ℚ) (q : List Char) :
    ∀ (l : List ShowDir) (best : Option (ShowDir × ℚ)),
      (∀ p, best = some p → p.2 = sim q p.1.name ∧ thr < p.2) →
      ∀ r, ngramFindGo sim thr q best l = some r →
        (best = some r ∨ r.1 ∈ l) ∧ r.2 = sim q r.1.name ∧ thr < r.2 ∧
        (∀ s ∈ l, sim q s.name ≤ thr ∨ sim q s.name ≤ r.2) ∧
        (∀ p, best = some p → p.2 ≤ r.2) := by
  intro l
  induction l with
  | nil =>
      intro best hinv r h
      rw [ngramFindGo] at h
      obtain ⟨h1, h2⟩ := hinv r h
      refine ⟨Or.inl h, h1, h2, by simp, fun p hp => ?_⟩
      rw [hp] at h
      injection h with h
      rw [h]
  | cons s rest ih =>
      intro best hinv r h
      rw [ngramFindGo] at h
      by_cases hs : thr < sim q s.name
      · rw [if_pos hs] at h
        cases best with
        | none =>
            rw [ngramBest] at h
            have hinv' : ∀ p, (some (s, sim q s.name) : Option (ShowDir × ℚ)) = some p →
                p.2 = sim q p.1.name ∧ thr < p.2 := by
              intro p hp
              injection hp with hp
              rw [← hp]
              exact ⟨rfl, hs⟩
            obtain ⟨ha, hb, hc, hd, he⟩ := ih _ hinv' r h
            refine ⟨?_, hb, hc, ?_, by simp⟩
            · right
              rcases ha with ha | ha
              · injection ha with ha
                rw [← ha]
                exact List.mem_cons_self s rest
              · exact List.mem_cons_of_mem _ ha
            · intro x hx
              rcases List.mem_cons.mp hx with h3 | h3
              · subst h3
                right
                exact he (x, sim q x.name) rfl
              · exact hd x h3
        | some p0 =>
            obtain ⟨b, bs⟩ := p0
            rw [ngramBest] at h
            by_cases hlt : bs < sim q s.name
            · rw [if_pos hlt] at h
              have hinv' : ∀ p, (some (s, sim q s.name) : Option (ShowDir × ℚ)) = some p →
                  p.2 = sim q p.1.name ∧ thr < p.2 := by
                intro p hp
                injection hp with hp
                rw [← hp]
                exact ⟨rfl, hs⟩
              obtain ⟨ha, hb, hc, hd, he⟩ := ih _ hinv' r h
              have hscr : sim q s.name ≤ r.2 := he (s, sim q s.name) rfl
              refine ⟨?_, hb, hc, ?_, ?_⟩
              · right
                rcases ha with ha | ha
                · injection ha with ha
                  rw [← ha]
                  exact List.mem_cons_self s rest
                · exact List.mem_cons_of_mem _ ha
              · intro x hx
                rcases List.mem_cons.mp hx with h3 | h3
                · subst h3
                  right
                  exact hscr
                · exact hd x h3
              · intro p hp
                injection hp with hp
                rw [← hp]
                exact le_trans (le_of_lt hlt) hscr
            · rw [if_neg hlt] at h
              obtain ⟨ha, hb, hc, hd, he⟩ := ih _ hinv r h
              have hbsr : bs ≤ r.2 := he (b, bs) rfl
              refine ⟨?_, hb, hc, ?_, he⟩
              · rcases ha with ha | ha
                · exact Or.inl ha
                · exact Or.inr (List.mem_cons_of_mem _ ha)
              · intro x hx
                rcases List.mem_cons.mp hx with h3 | h3
                · subst h3
                  right
                  exact le_trans (le_of_not_lt hlt) hbsr
                · exact hd x h3
      · rw [if_neg hs] at h
        obtain ⟨ha, hb, hc, hd, he⟩ := ih best hinv r h
        refine ⟨?_, hb, hc, ?_, he⟩
        · rcases ha with ha | ha
          · exact Or.inl ha
          · exact Or.inr (List.mem_cons_of_mem _ ha)
        · intro x hx
          rcases List.mem_cons.mp hx with h3 | h3
          · subst h3
            exact Or.inl (le_of_not_lt hs)
          · exact hd x h3

lemma ngramFind_eq_none (sim : Sim) (thr : ℚ) (q : List Char) (shows : List ShowDir)
    (h : ∀ s ∈ shows, sim q s.name ≤ thr) : ngramFind sim thr q shows = none := by
  rw [ngramFind]
  cases hgo : ngramFindGo sim thr q none shows with
  | none => rfl
  | some r =>
      obtain ⟨ha, hb, hc, _, _⟩ := ngramFindGo_spec sim thr q shows none (by simp) r hgo
      rcases ha with ha | ha
      · simp at ha
      · rw [hb] at hc
        exact absurd hc (not_lt.mpr (h r.1 ha))

lemma ngramFind_eq_some (sim : Sim) (thr : ℚ) (q : List Char) (shows : List ShowDir)
    (b : ShowDir) (h : ngramFind sim thr q shows = some b) :
    b ∈ shows ∧ thr < sim q b.name ∧ ∀ s ∈ shows, sim q s.name ≤ sim q b.name := by
  rw [ngramFind] at h
  cases hgo : ngramFindGo sim thr q none shows with
  | none => rw [hgo] at h; simp at h
  | some r =>
      rw [hgo] at h
      have h : r.1 = b := by simpa using h
      obtain ⟨ha, hb, hc, hd, _⟩ := ngramFindGo_spec sim thr q shows none (by simp) r hgo
      rcases ha with ha | ha
      · exact Option.noConfusion ha
      · have hmem : b ∈ shows := h ▸ ha
        have hscore : sim q b.name = r.2 := by rw [← h]; exact hb.symm
        refine ⟨hmem, by rw [hscore]; exact hc, fun s hs => ?_⟩
        rcases hd s hs with h5 | h5
        · rw [hscore]
          exact le_trans h5 (le_of_lt hc)
        · rw [hscore]
          exact h5

lemma ngramFind_isSome (sim : Sim) (thr : ℚ) (q : List Char) (shows : List ShowDir)
    (h : ∃ s ∈ shows, thr < sim q s.name) : (ngramFind sim thr q shows).isSome := by
  rw [ngramFind]
  cases hgo : ngramFindGo sim thr q none shows with
  | some r => rfl
  | none =>
      obtain ⟨_, hall⟩ := ngramFindGo_eq_none sim thr q shows none hgo
      obtain ⟨s, hs, hlt⟩ := h
      exact absurd (hall s hs) (not_le.mpr hlt)

/-- Claim C4: the Identity Resolver scans the library roots in the given
order and answers from the first root holding a candidate whose similarity
with the title strictly exceeds the threshold, returning the join of that
root with a best-scoring candidate name; when every candidate of every root
scores at or below the threshold (equality is not accepted), it returns
no-match. The external scorer is abstract; `exists_series` instantiates the
threshold with the constant `THRESHOLD`. -/
theorem c4_identity_resolver (sim : Sim) (thr : ℚ) (title : List Char) :
    (∀ (libs : List LibRoot),
      (∀ d ∈ libs, ∀ s ∈ d.shows, sim title s.name ≤ thr) →
      exists_seriesT sim thr libs title = none) ∧
    (∀ (pre : List LibRoot) (d : LibRoot) (rest : List LibRoot),
      (∀ d' ∈ pre, ∀ s ∈ d'.shows, sim title s.name ≤ thr) →
      (∃ s ∈ d.shows, thr < sim title s.name) →
      ∃ b, b ∈ d.shows ∧
        exists_seriesT sim thr (pre ++ d :: rest) title = some (pyJoin d.root b.name) ∧
        thr < sim title b.name ∧
        (∀ s ∈ d.shows, sim title s.name ≤ sim title b.name)) ∧
    (∀ libs : List LibRoot,
      exists_series sim libs title = exists_seriesT sim THRESHOLD libs title) := by
  refine ⟨?_, ?_, fun libs => rfl⟩
  · intro libs
    induction libs with
    | nil => intro _; rfl
    | cons d rest ih =>
        intro h
        rw [exists_seriesT, find_show,
          ngramFind_eq_none sim thr title d.shows (h d (List.mem_cons_self d rest))]
        exact ih (fun d' hd' => h d' (List.mem_cons_of_mem _ hd'))
  · intro pre
    induction pre with
    | nil =>
        intro d rest _ hex
        cases hng : ngramFind sim thr title d.shows with
        | none =>
            obtain ⟨s, hs, hlt⟩ := hex
            have := ngramFind_isSome sim thr title d.shows ⟨s, hs, hlt⟩
            rw [hng] at this
            simp at this
        | some b =>
            obtain ⟨hmem, hlt, hbest⟩ := ngramFind_eq_some sim thr title d.shows b hng
            refine ⟨b, hmem, ?_, hlt, hbest⟩
            rw [List.nil_append, exists_seriesT, find_show, hng]
            rfl
    | cons p pre' ih =>
        intro d rest hpre hex
        obtain ⟨b, hmem, heq, hlt, hbest⟩ :=
          ih d rest (fun d' hd' => hpre d' (List.mem_cons_of_mem _ hd')) hex
        refine ⟨b, hmem, ?_, hlt, hbest⟩
        rw [List.cons_append, exists_seriesT, find_show,
          ngramFind_eq_none sim thr title p.shows (hpre p (List.mem_cons_self p pre'))]
        rw [exists_seriesT] at heq
        exact heq

/-- Claim C4 witness: with a scorer rating the one candidate of the first
root at seven tenths against a threshold of six tenths, the resolver
returns that candidate joined to the first root. -/
theorem c4_identity_resolver_witness :
    ∃ b, b ∈ [ShowDir.mk "Star Trek Picard".data []] ∧
      exists_seriesT
        (fun (_ c : List Char) => if c = "Star Trek Picard".data then mkRat 7 10 else 0)
        (mkRat 6 10)
        ([] ++ LibRoot.mk "/tv".data [ShowDir.mk "Star Trek Picard".data []] :: [])
        "Star Trek: Picard".data =
        some (pyJoin
          (LibRoot.mk "/tv".data [ShowDir.mk "Star Trek Picard".data []]).root b.name) ∧
      mkRat 6 10 <
        (fun (_ c : List Char) => if c = "Star Trek Picard".data then mkRat 7 10 else 0)
          "Star Trek: Picard".data b.name ∧
      (∀ s ∈ (LibRoot.mk "/tv".data [ShowDir.mk "Star Trek Picard".data []]).shows,
        (fun (_ c : List Char) => if c = "Star Trek Picard".data then mkRat 7 10 else 0)
          "Star Trek: Picard".data s.name ≤
        (fun (_ c : List Char) => if c = "Star Trek Picard".data then mkRat 7 10 else 0)
          "Star Trek: Picard".data b.name) :=
  (c4_identity_resolver
    (fun (_ c : List Char) => if c = "Star Trek Picard".data then mkRat 7 10 else 0)
    (mkRat 6 10) "Star Trek: Picard".data).2.1
    [] (LibRoot.mk "/tv".data [ShowDir.mk "Star Trek Picard".data []]) []
    (by simp)
    ⟨ShowDir.mk "Star Trek Picard".data [], by simp, by decide⟩

/-- Claim C6: when the planned destination already exists, `postqueue`
aborts with the fatal overwrite error and the filesystem comes back
untouched — the source file is not moved, no directories are created and
the source directory is not removed, since in the source every mutation
comes after the existence check. -/
theorem c6_overwrite_guard (sim : Sim) (library : List LibRoot)
    (filename directory : List Char) (fs : FS) (source dest : List Char)
    (h1 : pq_src fs (pyJoin directory filename) = some source)
    (h2 : fs.isfile source = true)
    (h3 : pq_dest sim library source = some dest)
    (h4 : fs.existsPath dest = true) :
    postqueue sim library filename directory fs =
      (fs, some "destination already exists".data) := by
  rw [pq_dest] at h3
  cases hp : firstParsed (splitSlash source).reverse with
  | none => rw [hp] at h3; exact Option.noConfusion h3
  | some e =>
      rw [hp] at h3
      dsimp only at h3
      cases hf : format_episode sim library e with
      | none => rw [hf] at h3; exact Option.noConfusion h3
      | some d0 =>
          rw [hf] at h3
          have hd : (if endsWith (splitextExt source) d0 then d0
              else d0 ++ splitextExt source) = dest := by injection h3
          simp only [postqueue, h1, h2, Bool.not_true, Bool.false_eq_true, if_false,
            hp, hf, hd, h4, if_true]

/-- Claim C6 witness: the planned destination file already exists, the run
aborts with the overwrite error and the filesystem is unchanged. -/
theorem c6_overwrite_guard_witness :
    postqueue (fun _ _ => (1 : ℚ)) [LibRoot.mk "/tv".data [ShowDir.mk "A".data []]]
      "A.S01E02.1080p.mkv".data "/dl".data
      (FS.mk [("/dl/A.S01E02.1080p.mkv".data, 100),
              ("/tv/A/Season 01/a.s01e02.1080p.mkv".data, 50)]
        [("/dl".data, 4096), ("/tv".data, 4096), ("/tv/A".data, 4096),
         ("/tv/A/Season 01".data, 4096)]) =
      (FS.mk [("/dl/A.S01E02.1080p.mkv".data, 100),
              ("/tv/A/Season 01/a.s01e02.1080p.mkv".data, 50)]
        [("/dl".data, 4096), ("/tv".data, 4096), ("/tv/A".data, 4096),
         ("/tv/A/Season 01".data, 4096)],
       some "destination already exists".data) :=
  c6_overwrite_guard (fun _ _ => (1 : ℚ)) [LibRoot.mk "/tv".data [ShowDir.mk "A".data []]]
    "A.S01E02.1080p.mkv".data "/dl".data
    (FS.mk [("/dl/A.S01E02.1080p.mkv".data, 100),
            ("/tv/A/Season 01/a.s01e02.1080p.mkv".data, 50)]
      [("/dl".data, 4096), ("/tv".data, 4096), ("/tv/A".data, 4096),
       ("/tv/A/Season 01".data, 4096)])
    "/dl/A.S01E02.1080p.mkv".data "/tv/A/Season 01/a.s01e02.1080p.mkv".data
    (by decide) (by decide) (by decide) (by decide)

/-- Claim C7 is a code bug: the selection loop of `postqueue` maximizes
`getsize` over all `listdir` entries, subdirectories included, although its
own comment says it finds the largest file. Here the directory holds the
regular file `a.mkv` of ten bytes and a subdirectory `Sub` whose `getsize`
is 4096: the selected payload is the subdirectory, not the largest regular
file, and the run aborts instead of moving `a.mkv`. -/
theorem c7_largest_entry_selection :
    pq_src (FS.mk [("/dl/X/a.mkv".data, 10)]
        [("/dl".data, 4096), ("/dl/X".data, 4096), ("/dl/X/Sub".data, 4096)])
      "/dl/X/".data = some "/dl/X/Sub".data ∧
    (FS.mk [("/dl/X/a.mkv".data, 10)]
        [("/dl".data, 4096), ("/dl/X".data, 4096), ("/dl/X/Sub".data, 4096)]).isfile
      "/dl/X/Sub".data = false ∧
    (postqueue (fun _ _ => (0 : ℚ)) [] [] "/dl/X".data
      (FS.mk [("/dl/X/a.mkv".data, 10)]
        [("/dl".data, 4096), ("/dl/X".data, 4096), ("/dl/X/Sub".data, 4096)])).2 =
      some "source is not a file".data := by decide

end SimpleGet
